import Mathlib

/-!
# muduo `ThreadPool`: a shallow embedding

Source files embedded here:

* `muduo/base/ThreadPool.h`  (class layout, `setMaxQueueSize`, `setThreadInitCallback`)
* `muduo/base/ThreadPool.cc` (constructor, destructor, `start`, `stop`, `queueSize`, `run`,
  `take`, `isFull`, `runInThread`)
* `muduo/base/Exception.cc`  (constructor of `muduo::Exception`)

Modelling conventions.

* The members of the class become the fields of the structure `ThreadPool`, with their
  source names.  `maxQueueSize_` is a `size_t`: a natural number, written only through
  `setMaxQueueSize`, which performs the `int → size_t` conversion modulo `2 ^ w`.
* A `Task` is a `std::function<void ()>`: either empty or a callable.  A callable is an
  identity together with what invoking it does as far as the pool can see (it returns, or
  it throws one of the three kinds of exception that `runInThread` tells apart).
* Everything that happens between acquiring `mutex_` and releasing it is one atomic step.
  A `while (cond) wait();` loop is left only by evaluating `cond` to false with the lock
  held, so an operation that would have to wait is reported as "waiting" with the pool
  unchanged, and the operation is enabled again in any later state where `cond` is false.
* Effects that are not stored in the object (invoking a task, `push_back`, `pop_front`,
  condition-variable notifications, spawning and joining threads, lines printed on
  `stderr`, `abort()`) are emitted as a list of `Event`s, oldest first.
* Strings stand for the NUL-terminated text that `c_str()` hands to `fprintf`.
* A callable is characterised by how a call of it ends.  Member functions of the pool that
  the body of a task may call are steps of their own in a schedule; they are not part of
  the call event.
-/

namespace muduo

/-! ## Exceptions and tasks -/

/-- The two data members of `muduo::Exception`. -/
structure Exception where
  message_ : String
  stack_ : String
deriving DecidableEq, Repr

/-- The constructor `Exception::Exception(string msg)` of `Exception.cc`: the message is
moved in and the stack is whatever `CurrentThread::stackTrace(false)` yields at that moment
(a parameter, that function is an external collaborator). -/
def Exception.ctor (msg : String) (stackTraceNow : String) : Exception :=
  { message_ := msg, stack_ := stackTraceNow }

/-- Modelled from the spec: `Exception::what()` is declared in `Exception.h`, which is not
part of the sources at hand; the diagnostic error "produces a human-readable message",
the one given at construction. -/
def Exception.what (ex : Exception) : String := ex.message_

/-- Modelled from the spec: `Exception::stackTrace()` is declared in `Exception.h`, which is
not part of the sources at hand; it yields the "snapshot of the calling stack at
construction time". -/
def Exception.stackTrace (ex : Exception) : String := ex.stack_

/-- What a callable can throw, split the way the handlers of `runInThread` split it:
a `muduo::Exception`, another `std::exception` (with its `what()`), or anything else. -/
inductive Thrown where
  | muduoException (ex : Exception)
  | stdException (what : String)
  | unknown (payload : Nat)
deriving DecidableEq, Repr

/-- A non-empty `std::function<void ()>`: an identity, and what a call of it does
(`none`: it returns normally). -/
structure Callable where
  id : Nat
  throws : Option Thrown
deriving DecidableEq, Repr

/-- The type `ThreadPool::Task`, a `std::function<void ()>`; `none` is the empty function. -/
abbrev Task := Option Callable

/-- Result of the call expression `task()`. -/
inductive CallResult where
  | returned
  | threw (e : Thrown)
  | badFunctionCall
deriving DecidableEq, Repr

/-- The call `task()`: an empty `std::function` throws `std::bad_function_call`. -/
def Task.call : Task → CallResult
  | none => CallResult.badFunctionCall
  | some c =>
    match c.throws with
    | none => CallResult.returned
    | some e => CallResult.threw e

/-! ## Events -/

/-- The two condition variables of the pool. -/
inductive Cond where
  | notEmpty
  | notFull
deriving DecidableEq, Repr

/-- Effects of the member functions that are not stored in the object. -/
inductive Event where
  | call (t : Task)
  | pushBack (t : Task)
  | popFront (t : Task)
  | notify (c : Cond)
  | notifyAll (c : Cond)
  | spawn (threadName : String)
  | join (threadName : String)
  | stderr (line : String)
  | abort
deriving DecidableEq, Repr

/-! ## The pool object -/

/-- A `muduo::Thread` as far as the pool uses it: the name it was constructed with. -/
structure Thread where
  name : String
deriving DecidableEq, Repr

/-- The data members of `class ThreadPool` (the mutex and the two condition variables carry
no data of their own in this model). -/
structure ThreadPool where
  name_ : String
  threadInitCallback_ : Task
  threads_ : List Thread
  queue_ : List Task
  maxQueueSize_ : Nat
  running_ : Bool
deriving DecidableEq, Repr

namespace ThreadPool

/-- The constructor `ThreadPool::ThreadPool(const string& nameArg)`. -/
def ctor (nameArg : String) : ThreadPool :=
  { name_ := nameArg
    threadInitCallback_ := none
    threads_ := []
    queue_ := []
    maxQueueSize_ := 0
    running_ := false }

/-- Source: `void setMaxQueueSize(int maxSize) { maxQueueSize_ = maxSize; }` where
`maxQueueSize_` is a `size_t` of `w` bits: the conversion reduces the argument modulo
`2 ^ w`. -/
def setMaxQueueSize (w : Nat) (p : ThreadPool) (maxSize : Int) : ThreadPool :=
  { p with maxQueueSize_ := (maxSize % (2 : Int) ^ w).toNat }

/-- Source: `void setThreadInitCallback(const Task& cb) { threadInitCallback_ = cb; }`. -/
def setThreadInitCallback (p : ThreadPool) (cb : Task) : ThreadPool :=
  { p with threadInitCallback_ := cb }

/-- Source: `const string& name() const { return name_; }`. -/
def name (p : ThreadPool) : String := p.name_

/-- Source: `size_t ThreadPool::queueSize() const`, the size of `queue_` read under the
lock. -/
def queueSize (p : ThreadPool) : Nat := p.queue_.length

/-- Source: `bool ThreadPool::isFull() const`,
`maxQueueSize_ > 0 && queue_.size() >= maxQueueSize_`. -/
def isFull (p : ThreadPool) : Bool :=
  decide (p.maxQueueSize_ > 0) && decide (p.queue_.length ≥ p.maxQueueSize_)

/-- The name given to the thread created in iteration `i` of the loop of `start`:
`name_ + id` with `id` the decimal text of `i+1`. -/
def threadName (p : ThreadPool) (i : Nat) : String :=
  p.name_ ++ toString (i + 1)

/-- How a call of `start` ends. -/
inductive StartResult where
  /-- The assertion `assert(threads_.empty())` fails. -/
  | assertFailed
  /-- The call `threads_.reserve(numThreads)` throws `std::length_error` (negative `numThreads`,
  which converts to a size above `max_size()`); `running_` has been set already. -/
  | lengthError (p : ThreadPool)
  /-- The body ran to its end; `r` is the result of the call of the init callback when the
  last `if` made it, `returned` otherwise. -/
  | started (p : ThreadPool) (ev : List Event) (r : CallResult)
deriving DecidableEq, Repr

/-- Source: `void ThreadPool::start(int numThreads)`. -/
def start (p : ThreadPool) (numThreads : Int) : StartResult :=
  if p.threads_.isEmpty then
    let p1 := { p with running_ := true }
    if numThreads < 0 then
      StartResult.lengthError p1
    else
      let ids := List.range numThreads.toNat
      let p2 := { p1 with threads_ := ids.map (fun i => Thread.mk (p.threadName i)) }
      let spawned := ids.map (fun i => Event.spawn (p.threadName i))
      if numThreads = 0 ∧ p.threadInitCallback_.isSome then
        StartResult.started p2 (spawned ++ [Event.call p.threadInitCallback_])
          p.threadInitCallback_.call
      else
        StartResult.started p2 spawned CallResult.returned
  else
    StartResult.assertFailed

/-- Source: `void ThreadPool::stop()`: under the lock clear `running_` and broadcast on both
condition variables, then call `join()` on every element of `threads_` in order. -/
def stop (p : ThreadPool) : ThreadPool × List Event :=
  ({ p with running_ := false },
   [Event.notifyAll Cond.notEmpty, Event.notifyAll Cond.notFull]
     ++ p.threads_.map (fun thr => Event.join thr.name))

/-- The destructor `ThreadPool::~ThreadPool()`: `if (running_) stop();`. -/
def dtor (p : ThreadPool) : ThreadPool × List Event :=
  if p.running_ then stop p else (p, [])

/-- How a call of `run` ends, or that it cannot end yet. -/
inductive RunResult where
  /-- The caller is inside `while (isFull() && running_) notFull_.wait();`. -/
  | waiting
  /-- The assertion `assert(!isFull())` fails. -/
  | assertFailed
  /-- The call is over; `r` is the result of `task()` on the inline path and `returned`
  on the queue path. -/
  | done (p : ThreadPool) (ev : List Event) (r : CallResult)
deriving DecidableEq, Repr

/-- Source: `void ThreadPool::run(Task task)`. -/
def run (p : ThreadPool) (task : Task) : RunResult :=
  if p.threads_.isEmpty then
    RunResult.done p [Event.call task] task.call
  else if p.isFull && p.running_ then
    RunResult.waiting
  else if !p.running_ then
    RunResult.done p [] CallResult.returned
  else if p.isFull then
    RunResult.assertFailed
  else
    RunResult.done { p with queue_ := p.queue_ ++ [task] }
      [Event.pushBack task, Event.notify Cond.notEmpty] CallResult.returned

/-- Source: `ThreadPool::Task ThreadPool::take()`; `none` when the caller is inside
`while (queue_.empty() && running_) notEmpty_.wait();`. -/
def take (p : ThreadPool) : Option (ThreadPool × Task × List Event) :=
  if p.queue_.isEmpty && p.running_ then
    none
  else
    match p.queue_ with
    | [] => some (p, none, [])
    | t :: rest =>
      some ({ p with queue_ := rest }, t,
        Event.popFront t :: (if p.maxQueueSize_ > 0 then [Event.notify Cond.notFull] else []))

/-! ## The worker thread function -/

/-- Where a worker thread stands inside `ThreadPool::runInThread`. -/
inductive WorkerPc where
  /-- At the top of the `try` block, before `if (threadInitCallback_)`. -/
  | entry
  /-- About to evaluate the loop condition `while (running_)`. -/
  | loopTest
  /-- Inside `take()`, at its wait loop. -/
  | inTake
  /-- The call `take()` has returned `t`; about to evaluate `if (task)`. -/
  | haveTask (t : Task)
  /-- The thread function returned normally. -/
  | exited
  /-- The thread called `abort()`: the process is terminated. -/
  | aborted
  /-- The handler `catch (...)` executed `throw;`: the exception `e` leaves the thread
  function. -/
  | rethrown (e : Thrown)
deriving DecidableEq, Repr

/-- The three handlers of `runInThread`, selected by what was thrown. -/
def onThrow (p : ThreadPool) : Thrown → WorkerPc × List Event
  | Thrown.muduoException ex =>
    (WorkerPc.aborted,
     [Event.stderr ("exception caught in ThreadPool " ++ p.name_ ++ "\n"),
      Event.stderr ("reason: " ++ ex.what ++ "\n"),
      Event.stderr ("stack trace: " ++ ex.stackTrace ++ "\n"),
      Event.abort])
  | Thrown.stdException what =>
    (WorkerPc.aborted,
     [Event.stderr ("exception caught in ThreadPool " ++ p.name_ ++ "\n"),
      Event.stderr ("reason: " ++ what ++ "\n"),
      Event.abort])
  | Thrown.unknown payload =>
    (WorkerPc.rethrown (Thrown.unknown payload),
     [Event.stderr ("unknown exception caught in ThreadPool " ++ p.name_ ++ "\n")])

/-- A guarded call `if (f) f();` inside the `try` block of `runInThread`, continuing at
`next` when nothing is thrown. -/
def guardedCall (p : ThreadPool) (f : Task) (next : WorkerPc) : WorkerPc × List Event :=
  match f with
  | none => (next, [])
  | some c =>
    match c.throws with
    | none => (next, [Event.call (some c)])
    | some e => ((onThrow p e).1, Event.call (some c) :: (onThrow p e).2)

/-- One step of a worker thread running `runInThread`; `none` when the thread cannot move
(it waits inside `take()`, or the thread function is over). -/
def workerStep (p : ThreadPool) : WorkerPc → Option (ThreadPool × WorkerPc × List Event)
  | WorkerPc.entry =>
    some (p, (guardedCall p p.threadInitCallback_ WorkerPc.loopTest).1,
            (guardedCall p p.threadInitCallback_ WorkerPc.loopTest).2)
  | WorkerPc.loopTest =>
    if p.running_ then some (p, WorkerPc.inTake, []) else some (p, WorkerPc.exited, [])
  | WorkerPc.inTake =>
    match p.take with
    | none => none
    | some (p1, t, ev) => some (p1, WorkerPc.haveTask t, ev)
  | WorkerPc.haveTask t =>
    some (p, (guardedCall p t WorkerPc.loopTest).1, (guardedCall p t WorkerPc.loopTest).2)
  | WorkerPc.exited => none
  | WorkerPc.aborted => none
  | WorkerPc.rethrown _ => none

/-- Source: `void ThreadPool::runInThread()` from the point `pc`, with no other thread
touching the pool meanwhile: at most `fuel` steps, stopping early where the thread cannot
move. -/
def runInThread : Nat → ThreadPool → WorkerPc → ThreadPool × WorkerPc × List Event
  | 0, p, pc => (p, pc, [])
  | fuel + 1, p, pc =>
    match workerStep p pc with
    | none => (p, pc, [])
    | some (p1, pc1, ev) =>
      ((runInThread fuel p1 pc1).1, (runInThread fuel p1 pc1).2.1,
        ev ++ (runInThread fuel p1 pc1).2.2)

end ThreadPool

/-! ## Interleavings of the lock-protected operations -/

/-- A pool together with everything its operations have emitted so far. -/
structure Sys where
  pool : ThreadPool
  trace : List Event
deriving DecidableEq, Repr

/-- The atomic steps that threads perform on a started pool: a submitter completing
`run(task)`, a worker completing `take()`, somebody calling `stop()`. -/
inductive Action where
  | run (task : Task)
  | take
  | stop
deriving DecidableEq, Repr

/-- One atomic step; `none` when the step cannot complete in this state (the thread has to
wait) or an assertion fails. -/
def step (s : Sys) : Action → Option Sys
  | Action.run task =>
    match s.pool.run task with
    | ThreadPool.RunResult.done p ev _ => some { pool := p, trace := s.trace ++ ev }
    | _ => none
  | Action.take =>
    match s.pool.take with
    | some (p, _, ev) => some { pool := p, trace := s.trace ++ ev }
    | none => none
  | Action.stop => some { pool := s.pool.stop.1, trace := s.trace ++ s.pool.stop.2 }

/-- A schedule: the steps complete one after the other, in the order of the list. -/
def steps (s : Sys) : List Action → Option Sys
  | [] => some s
  | a :: rest =>
    match step s a with
    | none => none
    | some s1 => steps s1 rest

/-- The tasks appended to `queue_` by `push_back`, in the order the enqueues completed. -/
def pushed : List Event → List Task
  | [] => []
  | Event.pushBack t :: rest => t :: pushed rest
  | _ :: rest => pushed rest

/-- The tasks removed from `queue_` by `pop_front`, in the order the takes completed. -/
def popped : List Event → List Task
  | [] => []
  | Event.popFront t :: rest => t :: popped rest
  | _ :: rest => popped rest

/-- The calls `task()` made, in order. -/
def called : List Event → List Task
  | [] => []
  | Event.call t :: rest => t :: called rest
  | _ :: rest => called rest

/-- The threads on which `join()` was called, in order. -/
def joined : List Event → List String
  | [] => []
  | Event.join n :: rest => n :: joined rest
  | _ :: rest => joined rest

/-! ## Construction, configuration and start in one go -/

/-- The usual life of a pool up to `start`: construct it, set the queue bound and the init
callback, start it. -/
def boot (w : Nat) (nameArg : String) (maxSize : Int) (cb : Task) (numThreads : Int) :
    ThreadPool.StartResult :=
  (((ThreadPool.ctor nameArg).setMaxQueueSize w maxSize).setThreadInitCallback cb).start
    numThreads

/-! ## Concrete pools used as inputs of the closed statements -/

/-- A pool named `P`, capacity 1, one worker, one task queued, `stop()` already called. -/
def stoppedFullPool : ThreadPool :=
  { name_ := "P"
    threadInitCallback_ := none
    threads_ := [⟨"P1"⟩]
    queue_ := [some ⟨1, none⟩]
    maxQueueSize_ := 1
    running_ := false }

/-- The pool named `P` right after `start(1)`: no bound, no init callback, one worker `P1`,
an empty queue. -/
def startedPool : ThreadPool :=
  { name_ := "P"
    threadInitCallback_ := none
    threads_ := [⟨"P1"⟩]
    queue_ := []
    maxQueueSize_ := 0
    running_ := true }

/-- The pool `startedPool` after `run` of an empty `Task`. -/
def startedPoolWithEmptyTask : ThreadPool :=
  { name_ := "P"
    threadInitCallback_ := none
    threads_ := [⟨"P1"⟩]
    queue_ := [none]
    maxQueueSize_ := 0
    running_ := true }

/-- The pool `startedPool` after `stop()`. -/
def stoppedPool : ThreadPool :=
  { name_ := "P"
    threadInitCallback_ := none
    threads_ := [⟨"P1"⟩]
    queue_ := []
    maxQueueSize_ := 0
    running_ := false }

/-- The pool named `P` right after `start(0)`: no worker. -/
def zeroWorkerRunning : ThreadPool :=
  { name_ := "P"
    threadInitCallback_ := none
    threads_ := []
    queue_ := []
    maxQueueSize_ := 0
    running_ := true }

/-- The pool `zeroWorkerRunning` after `stop()`; also the pool named `P` as constructed. -/
def zeroWorkerStopped : ThreadPool :=
  { name_ := "P"
    threadInitCallback_ := none
    threads_ := []
    queue_ := []
    maxQueueSize_ := 0
    running_ := false }

/-! ## Sequences of calls made on one pool object -/

/-- Calls on a pool object: its public member functions, and `take`, which a worker thread
of the pool performs in between. -/
inductive Op where
  | setMaxQueueSize (maxSize : Int)
  | setThreadInitCallback (cb : Task)
  | start (numThreads : Int)
  | stop
  | name
  | queueSize
  | run (task : Task)
  | take
deriving DecidableEq, Repr

/-- The pool object after a completed call, on a platform whose `size_t` has `w` bits;
`none` when the call does not complete: the assertion of `start` fails (its precondition,
an empty `threads_`, does not hold), or the caller of `run` or `take` has to wait.  A `start`
left by `std::length_error` has completed, with `running_` set. -/
def applyOp (w : Nat) (p : ThreadPool) : Op → Option ThreadPool
  | Op.setMaxQueueSize maxSize => some (p.setMaxQueueSize w maxSize)
  | Op.setThreadInitCallback cb => some (p.setThreadInitCallback cb)
  | Op.start numThreads =>
    match p.start numThreads with
    | ThreadPool.StartResult.assertFailed => none
    | ThreadPool.StartResult.lengthError p1 => some p1
    | ThreadPool.StartResult.started p1 _ _ => some p1
  | Op.stop => some p.stop.1
  | Op.name => some p
  | Op.queueSize => some p
  | Op.run task =>
    match p.run task with
    | ThreadPool.RunResult.done p1 _ _ => some p1
    | _ => none
  | Op.take =>
    match p.take with
    | some (p1, _, _) => some p1
    | none => none

/-- The pool object after a sequence of completed calls. -/
def applyOps (w : Nat) (p : ThreadPool) : List Op → Option ThreadPool
  | [] => some p
  | op :: rest =>
    match applyOp w p op with
    | none => none
    | some p1 => applyOps w p1 rest

/-! ## Properties -/

open ThreadPool

/-! ### Auxiliary facts about traces, `start`, `run`, `take` and schedules -/

/-- The enqueue projection distributes over concatenation of traces. -/
theorem pushed_append (a b : List Event) : pushed (a ++ b) = pushed a ++ pushed b := by
  induction a with
  | nil => rfl
  | cons e a ih => cases e <;> simp [pushed, ih]

/-- The dequeue projection distributes over concatenation of traces. -/
theorem popped_append (a b : List Event) : popped (a ++ b) = popped a ++ popped b := by
  induction a with
  | nil => rfl
  | cons e a ih => cases e <;> simp [popped, ih]

/-- Spawning threads enqueues nothing. -/
theorem pushed_spawn (f : Nat → String) (l : List Nat) :
    pushed (l.map (fun i => Event.spawn (f i))) = [] := by
  induction l with
  | nil => rfl
  | cons i l ih => simpa [pushed] using ih

/-- Spawning threads dequeues nothing. -/
theorem popped_spawn (f : Nat → String) (l : List Nat) :
    popped (l.map (fun i => Event.spawn (f i))) = [] := by
  induction l with
  | nil => rfl
  | cons i l ih => simpa [popped] using ih

/-- What a pool looks like when `start` has run to its end on a freshly configured pool. -/
theorem boot_started (w : Nat) (nameArg : String) (maxSize : Int) (cb : Task)
    (numThreads : Int) (p0 : ThreadPool) (ev0 : List Event) (r : CallResult)
    (h : boot w nameArg maxSize cb numThreads = StartResult.started p0 ev0 r) :
    p0.queue_ = [] ∧ p0.maxQueueSize_ = (maxSize % (2 : Int) ^ w).toNat ∧ p0.running_ = true
    ∧ p0.threads_.length = numThreads.toNat ∧ pushed ev0 = [] ∧ popped ev0 = [] := by
  unfold boot ThreadPool.start at h
  simp only [ThreadPool.ctor, ThreadPool.setMaxQueueSize, ThreadPool.setThreadInitCallback,
    List.isEmpty_nil, if_true] at h
  split at h
  · cases h
  · split at h
    · cases h
      simp [pushed_append, popped_append, pushed_spawn, popped_spawn, pushed, popped,
        ThreadPool.threadName]
    · cases h
      simp [pushed_spawn, popped_spawn, ThreadPool.threadName]

/-- The test `threads_.empty()` on a non-empty vector. -/
theorem isEmpty_eq_false_of_ne {α : Type} (l : List α) (h : l ≠ []) : l.isEmpty = false := by
  cases l with
  | nil => exact absurd rfl h
  | cons a l => rfl

/-- The ways in which `run` ends. -/
theorem run_done_cases (p p1 : ThreadPool) (task : Task) (ev : List Event) (r : CallResult)
    (h : p.run task = RunResult.done p1 ev r) :
    (p1 = p ∧ p.threads_ = [] ∧ ev = [Event.call task] ∧ r = task.call)
    ∨ (p1 = p ∧ p.threads_ ≠ [] ∧ p.running_ = false ∧ ev = [] ∧ r = CallResult.returned)
    ∨ (p1 = { p with queue_ := p.queue_ ++ [task] } ∧ p.threads_ ≠ [] ∧ p.running_ = true
        ∧ p.isFull = false ∧ ev = [Event.pushBack task, Event.notify Cond.notEmpty]
        ∧ r = CallResult.returned) := by
  unfold ThreadPool.run at h
  split at h
  · rename_i hth
    cases h
    left
    exact ⟨rfl, List.isEmpty_iff.mp hth, rfl, rfl⟩
  · rename_i hth
    have hne : p.threads_ ≠ [] := fun hc => hth (by simp [hc])
    split at h
    · cases h
    · split at h
      · rename_i hr
        cases h
        right; left
        exact ⟨rfl, hne, by simpa using hr, rfl, rfl⟩
      · rename_i hnw hr
        split at h
        · cases h
        · rename_i hf
          cases h
          right; right
          refine ⟨rfl, hne, by simpa using hr, by simpa using hf, rfl, rfl⟩

/-- The ways in which `take` ends. -/
theorem take_some_cases (p p1 : ThreadPool) (t : Task) (ev : List Event)
    (h : p.take = some (p1, t, ev)) :
    (p.queue_ = [] ∧ p.running_ = false ∧ p1 = p ∧ t = none ∧ ev = [])
    ∨ (∃ rest, p.queue_ = t :: rest ∧ p1 = { p with queue_ := rest }
        ∧ ev = Event.popFront t
            :: (if p.maxQueueSize_ > 0 then [Event.notify Cond.notFull] else [])) := by
  unfold ThreadPool.take at h
  split at h
  · cases h
  · rename_i hw
    split at h
    · rename_i hq
      cases h
      left
      simp [hq] at hw
      exact ⟨hq, hw, rfl, rfl, rfl⟩
    · rename_i t0 rest hq
      cases h
      right
      exact ⟨rest, hq, rfl, rfl⟩

/-- Induction over schedules. -/
theorem steps_induction (P : Sys → Prop)
    (hstep : ∀ s a s1, P s → step s a = some s1 → P s1) :
    ∀ (acts : List Action) (s s1 : Sys), P s → steps s acts = some s1 → P s1 := by
  intro acts
  induction acts with
  | nil =>
    intro s s1 hP h
    simp only [steps, Option.some.injEq] at h
    exact h ▸ hP
  | cons a rest ih =>
    intro s s1 hP h
    simp only [steps] at h
    split at h
    · cases h
    · rename_i s2 hs2
      exact ih s2 s1 (hstep s a s2 hP hs2) h

/-- A step of a worker either leaves the pool object as it is or is a completed `take()`:
the `take` steps of a schedule are all that workers do to the pool. -/
theorem workerStep_pool (p p1 : ThreadPool) (pc pc1 : WorkerPc) (ev : List Event)
    (h : p.workerStep pc = some (p1, pc1, ev)) :
    p1 = p
    ∨ (pc = WorkerPc.inTake ∧ ∃ t, p.take = some (p1, t, ev) ∧ pc1 = WorkerPc.haveTask t) := by
  cases pc with
  | entry =>
    simp only [ThreadPool.workerStep, Option.some.injEq, Prod.mk.injEq] at h
    exact Or.inl h.1.symm
  | loopTest =>
    simp only [ThreadPool.workerStep] at h
    split at h <;> simp only [Option.some.injEq, Prod.mk.injEq] at h <;> exact Or.inl h.1.symm
  | inTake =>
    simp only [ThreadPool.workerStep] at h
    split at h
    · cases h
    · rename_i p2 t ev2 htake
      simp only [Option.some.injEq, Prod.mk.injEq] at h
      obtain ⟨rfl, rfl, rfl⟩ := h
      exact Or.inr ⟨rfl, t, htake, rfl⟩
  | haveTask t =>
    simp only [ThreadPool.workerStep, Option.some.injEq, Prod.mk.injEq] at h
    exact Or.inl h.1.symm
  | exited => simp [ThreadPool.workerStep] at h
  | aborted => simp [ThreadPool.workerStep] at h
  | rethrown e => simp [ThreadPool.workerStep] at h

/-! ### Inline execution on a pool without workers -/

/-- C3. On every pool whose `threads_` is empty, whatever `running_` is, `run(task)` is
over at once (it never waits and fails no assertion), has made exactly one call of the
task and no `push_back`, hands the result of that call to its caller, and leaves the pool
object, hence `queue_` and `running_`, as it was. -/
theorem run_inline_of_no_workers (p : ThreadPool) (task : Task) (h : p.threads_ = []) :
    ∃ ev, p.run task = RunResult.done p ev task.call
      ∧ ev = [Event.call task] ∧ called ev = [task] ∧ pushed ev = [] := by
  refine ⟨[Event.call task], ?_, rfl, rfl, rfl⟩
  simp [ThreadPool.run, h]

/-- Witness for C3: the pool `P` started with zero threads and then stopped. -/
theorem run_inline_of_no_workers_witness :
    (zeroWorkerStopped.threads_ = [] ∧ zeroWorkerStopped.running_ = false
      ∧ zeroWorkerRunning.stop.1 = zeroWorkerStopped)
    ∧ ∃ ev, zeroWorkerStopped.run (some ⟨7, none⟩)
          = RunResult.done zeroWorkerStopped ev (Task.call (some ⟨7, none⟩))
        ∧ ev = [Event.call (some ⟨7, none⟩)] ∧ called ev = [some ⟨7, none⟩]
        ∧ pushed ev = [] :=
  ⟨by decide, run_inline_of_no_workers zeroWorkerStopped (some ⟨7, none⟩) rfl⟩

/-! ### Submission to a stopped pool -/

/-- C4. On every pool with at least one worker: if `running_` is false, `run(task)`
returns with the pool unchanged and with no event at all (no call of the task, no
`push_back`); a caller that finds the queue full while the pool runs waits; and once
`stop()` has run, whatever the pool was before, the call ends as in the first case, so a
caller that was waiting returns without enqueuing. -/
theorem run_noop_of_stopped (p : ThreadPool) (task : Task) (hw : p.threads_ ≠ []) :
    (p.running_ = false → p.run task = RunResult.done p [] CallResult.returned)
    ∧ (p.isFull = true → p.running_ = true → p.run task = RunResult.waiting)
    ∧ p.stop.1.run task = RunResult.done p.stop.1 [] CallResult.returned
    ∧ p.stop.1.queue_ = p.queue_ := by
  have hne : p.threads_.isEmpty = false := by
    cases hq : p.threads_ with
    | nil => exact absurd hq hw
    | cons a l => rfl
  refine ⟨?_, ?_, ?_, rfl⟩
  · intro hr
    simp [ThreadPool.run, hne, hr]
  · intro hf hr
    simp [ThreadPool.run, hne, hr, hf]
  · simp [ThreadPool.run, ThreadPool.stop, hne]

/-- Witness for C4: a pool of capacity 1 with one worker, its queue full, then stopped. -/
theorem run_noop_of_stopped_witness :
    (stoppedFullPool.threads_ ≠ [] ∧ stoppedFullPool.running_ = false)
    ∧ stoppedFullPool.run (some ⟨2, none⟩)
        = RunResult.done stoppedFullPool [] CallResult.returned :=
  ⟨by decide, (run_noop_of_stopped stoppedFullPool (some ⟨2, none⟩) (by decide)).1 rfl⟩

/-! ### Conversion of a negative queue bound -/

/-- For a negative `int` and a `size_t` at least as wide, reduction modulo `2 ^ w` adds
`2 ^ w` once. -/
theorem emod_two_pow_of_neg (w : Nat) (m : Int) (hw : 32 ≤ w) (hlo : -(2 : Int) ^ 31 ≤ m)
    (hneg : m < 0) : m % (2 : Int) ^ w = (2 : Int) ^ w + m := by
  have h31 : (2 : Int) ^ 31 < (2 : Int) ^ w := pow_lt_pow_right₀ (by norm_num) (by omega)
  rw [Int.emod_eq_add_self_emod, Int.add_comm m]
  apply Int.emod_eq_of_lt <;> omega

/-- C10. `setMaxQueueSize` with a negative `int` argument `m`, on a platform whose `size_t`
has `w ≥ 32` bits: the stored bound is `m mod 2 ^ w`, that is `2 ^ w + m`, which is positive
and at least `2 ^ w - 2 ^ 31`; and `isFull()` is false for every queue shorter than that. -/
theorem setMaxQueueSize_negative_wraps (w : Nat) (m : Int) (p : ThreadPool) (hw : 32 ≤ w)
    (hlo : -(2 : Int) ^ 31 ≤ m) (hneg : m < 0) :
    ((p.setMaxQueueSize w m).maxQueueSize_ : Int) = m % (2 : Int) ^ w
    ∧ ((p.setMaxQueueSize w m).maxQueueSize_ : Int) = (2 : Int) ^ w + m
    ∧ 2 ^ w - 2 ^ 31 ≤ (p.setMaxQueueSize w m).maxQueueSize_
    ∧ 0 < (p.setMaxQueueSize w m).maxQueueSize_
    ∧ ∀ q : List Task, q.length < (p.setMaxQueueSize w m).maxQueueSize_ →
        ({ p.setMaxQueueSize w m with queue_ := q }).isFull = false := by
  have h31 : (2 : Int) ^ 31 < (2 : Int) ^ w := pow_lt_pow_right₀ (by norm_num) (by omega)
  have hmod := emod_two_pow_of_neg w m hw hlo hneg
  have hcast : ((p.setMaxQueueSize w m).maxQueueSize_ : Int) = m % (2 : Int) ^ w := by
    simp only [ThreadPool.setMaxQueueSize]
    apply Int.toNat_of_nonneg
    omega
  have hpw : ((2 ^ w : Nat) : Int) = (2 : Int) ^ w := by norm_cast
  have hp31 : ((2 ^ 31 : Nat) : Int) = (2 : Int) ^ 31 := by norm_cast
  refine ⟨hcast, hcast.trans hmod, ?_, ?_, ?_⟩
  · omega
  · omega
  · intro q hq
    simp only [ThreadPool.isFull]
    simp
    intro _
    exact hq

/-- Witness for C10: `setMaxQueueSize(-1)` with a 64-bit `size_t`. -/
theorem setMaxQueueSize_negative_wraps_witness :
    (32 ≤ 64 ∧ -(2 : Int) ^ 31 ≤ -1 ∧ (-1 : Int) < 0)
    ∧ (((ThreadPool.ctor "P").setMaxQueueSize 64 (-1)).maxQueueSize_ : Int)
        = (-1) % (2 : Int) ^ 64
    ∧ (((ThreadPool.ctor "P").setMaxQueueSize 64 (-1)).maxQueueSize_ : Int)
        = (2 : Int) ^ 64 + (-1)
    ∧ 2 ^ 64 - 2 ^ 31 ≤ ((ThreadPool.ctor "P").setMaxQueueSize 64 (-1)).maxQueueSize_
    ∧ 0 < ((ThreadPool.ctor "P").setMaxQueueSize 64 (-1)).maxQueueSize_
    ∧ ∀ q : List Task,
        q.length < ((ThreadPool.ctor "P").setMaxQueueSize 64 (-1)).maxQueueSize_ →
        ({ (ThreadPool.ctor "P").setMaxQueueSize 64 (-1) with queue_ := q }).isFull = false :=
  ⟨by decide,
   setMaxQueueSize_negative_wraps 64 (-1) (ThreadPool.ctor "P") (by decide) (by decide)
     (by decide)⟩

/-! ### Failure policy of the worker thread -/

/-- A worker that called `abort()` makes no step, however much fuel it is given. -/
theorem runInThread_aborted (fuel : Nat) (q : ThreadPool) :
    q.runInThread fuel WorkerPc.aborted = (q, WorkerPc.aborted, []) := by
  cases fuel <;> rfl

/-- A worker whose thread function was left by an exception makes no step. -/
theorem runInThread_rethrown (fuel : Nat) (q : ThreadPool) (e : Thrown) :
    q.runInThread fuel (WorkerPc.rethrown e) = (q, WorkerPc.rethrown e, []) := by
  cases fuel <;> rfl

/-- C8. A worker at the loop test of `runInThread`, on a running pool whose queue starts
with a callable `c`, with no other thread interfering, for any number `fuel + 3` of steps:
it removes `c`, calls it once, and then
* if `c` throws a `muduo::Exception`: prints the pool name, `what()` and `stackTrace()` on
  `stderr` and calls `abort()`;
* if `c` throws another `std::exception`: prints the pool name and `what()` and calls
  `abort()`;
* if `c` throws anything else: prints the notice with the pool name and rethrows that same
  exception, without `abort()`;
in all three cases the rest of the queue is untouched and no further task is called, and
the worker has no further step.  For contrast, when `c` returns normally the worker is back
at the loop test after three steps. -/
theorem worker_failure_policy (p : ThreadPool) (i : Nat) (rest : List Task) (ex : Exception)
    (what : String) (payload : Nat) (fuel : Nat) :
    ({ p with running_ := true,
              queue_ := some ⟨i, some (Thrown.muduoException ex)⟩ :: rest }.runInThread
        (fuel + 3) WorkerPc.loopTest
      = ({ p with running_ := true, queue_ := rest }, WorkerPc.aborted,
          Event.popFront (some ⟨i, some (Thrown.muduoException ex)⟩)
            :: ((if p.maxQueueSize_ > 0 then [Event.notify Cond.notFull] else [])
            ++ [Event.call (some ⟨i, some (Thrown.muduoException ex)⟩),
                Event.stderr ("exception caught in ThreadPool " ++ p.name_ ++ "\n"),
                Event.stderr ("reason: " ++ ex.what ++ "\n"),
                Event.stderr ("stack trace: " ++ ex.stackTrace ++ "\n"),
                Event.abort])))
    ∧ ({ p with running_ := true,
                queue_ := some ⟨i, some (Thrown.stdException what)⟩ :: rest }.runInThread
        (fuel + 3) WorkerPc.loopTest
      = ({ p with running_ := true, queue_ := rest }, WorkerPc.aborted,
          Event.popFront (some ⟨i, some (Thrown.stdException what)⟩)
            :: ((if p.maxQueueSize_ > 0 then [Event.notify Cond.notFull] else [])
            ++ [Event.call (some ⟨i, some (Thrown.stdException what)⟩),
                Event.stderr ("exception caught in ThreadPool " ++ p.name_ ++ "\n"),
                Event.stderr ("reason: " ++ what ++ "\n"),
                Event.abort])))
    ∧ ({ p with running_ := true,
                queue_ := some ⟨i, some (Thrown.unknown payload)⟩ :: rest }.runInThread
        (fuel + 3) WorkerPc.loopTest
      = ({ p with running_ := true, queue_ := rest },
          WorkerPc.rethrown (Thrown.unknown payload),
          Event.popFront (some ⟨i, some (Thrown.unknown payload)⟩)
            :: ((if p.maxQueueSize_ > 0 then [Event.notify Cond.notFull] else [])
            ++ [Event.call (some ⟨i, some (Thrown.unknown payload)⟩),
                Event.stderr ("unknown exception caught in ThreadPool " ++ p.name_ ++ "\n")])))
    ∧ ({ p with running_ := true, queue_ := some ⟨i, none⟩ :: rest }.runInThread
        3 WorkerPc.loopTest
      = ({ p with running_ := true, queue_ := rest }, WorkerPc.loopTest,
          Event.popFront (some ⟨i, none⟩)
            :: ((if p.maxQueueSize_ > 0 then [Event.notify Cond.notFull] else [])
            ++ [Event.call (some ⟨i, none⟩)])))
    ∧ (∀ q : ThreadPool, q.workerStep WorkerPc.aborted = none
        ∧ q.workerStep (WorkerPc.rethrown (Thrown.unknown payload)) = none) := by
  refine ⟨?_, ?_, ?_, ?_, fun q => ⟨rfl, rfl⟩⟩ <;>
    simp [ThreadPool.runInThread, ThreadPool.workerStep, ThreadPool.take,
      ThreadPool.guardedCall, ThreadPool.onThrow, Exception.what, Exception.stackTrace,
      runInThread_aborted, runInThread_rethrown]

/-- One step keeps a positive bound and keeps the queue within it. -/
theorem step_keeps_bound (c : Nat) (hc : 0 < c) (s : Sys) (a : Action) (s1 : Sys)
    (hP : s.pool.maxQueueSize_ = c ∧ s.pool.queue_.length ≤ c) (h : step s a = some s1) :
    s1.pool.maxQueueSize_ = c ∧ s1.pool.queue_.length ≤ c := by
  obtain ⟨hm, hl⟩ := hP
  cases a with
  | run task =>
    simp only [step] at h
    split at h
    · rename_i p ev r hrun
      cases h
      rcases run_done_cases _ _ _ _ _ hrun with ⟨rfl, -⟩ | ⟨rfl, -⟩ | ⟨rfl, -, -, hf, -⟩
      · exact ⟨hm, hl⟩
      · exact ⟨hm, hl⟩
      · refine ⟨hm, ?_⟩
        simp only [ThreadPool.isFull, hm] at hf
        simp at hf
        simp only [List.length_append, List.length_singleton]
        have := hf hc
        omega
    · cases h
  | take =>
    simp only [step] at h
    split at h
    · rename_i p t ev htake
      cases h
      rcases take_some_cases _ _ _ _ htake with ⟨-, -, rfl, -⟩ | ⟨rest, hq, rfl, -⟩
      · exact ⟨hm, hl⟩
      · refine ⟨hm, ?_⟩
        rw [hq] at hl
        simp only [List.length_cons] at hl
        show rest.length ≤ c
        omega
    · cases h
  | stop =>
    simp only [step, Option.some.injEq] at h
    cases h
    exact ⟨hm, hl⟩

/-- C1. Take a pool that was constructed, given a positive queue bound `c` (an `int`, stored
in a `size_t` of `w ≥ 32` bits) and an init callback, and started.  In every state reached
by any schedule of completed `run`, `take` and `stop` steps the bound is still `c` and the
queue holds at most `c` tasks.  And on any pool whose bound is 0, `isFull()` is false
whatever the length of the queue, so `run` never waits, and on a running pool with workers
it enqueues. -/
theorem queue_bound_invariant (w : Nat) (nameArg : String) (c : Nat) (cb : Task)
    (numThreads : Int) (p0 : ThreadPool) (ev0 : List Event) (r : CallResult)
    (acts : List Action) (s : Sys)
    (hw : 32 ≤ w) (hc : 0 < c) (hint : c < 2 ^ 31)
    (hstart : boot w nameArg (c : Int) cb numThreads = StartResult.started p0 ev0 r)
    (hreach : steps { pool := p0, trace := ev0 } acts = some s) :
    (s.pool.maxQueueSize_ = c ∧ s.pool.queueSize ≤ c)
    ∧ ∀ (q : ThreadPool) (task : Task), q.maxQueueSize_ = 0 →
        q.isFull = false ∧ q.run task ≠ RunResult.waiting
        ∧ (q.threads_ ≠ [] → q.running_ = true →
            q.run task = RunResult.done { q with queue_ := q.queue_ ++ [task] }
              [Event.pushBack task, Event.notify Cond.notEmpty] CallResult.returned) := by
  constructor
  · obtain ⟨hq, hm, -⟩ := boot_started _ _ _ _ _ _ _ _ hstart
    have hcap : p0.maxQueueSize_ = c := by
      rw [hm]
      have h31 : (2 : Int) ^ 31 ≤ (2 : Int) ^ w := pow_le_pow_right₀ (by norm_num) (by omega)
      have hc31 : ((2 ^ 31 : Nat) : Int) = (2 : Int) ^ 31 := by norm_cast
      have : (c : Int) % (2 : Int) ^ w = c := by
        apply Int.emod_eq_of_lt <;> omega
      rw [this]
      simp
    exact steps_induction (fun s => s.pool.maxQueueSize_ = c ∧ s.pool.queue_.length ≤ c)
      (fun s a s1 hP h => step_keeps_bound c hc s a s1 hP h) acts _ s
      ⟨hcap, by simp [hq]⟩ hreach
  · intro q task hz
    have hf : q.isFull = false := by simp [ThreadPool.isFull, hz]
    refine ⟨hf, ?_, ?_⟩
    · unfold ThreadPool.run
      split
      · simp
      · simp [hf]
        split <;> simp
    · intro hth hr
      simp [ThreadPool.run, isEmpty_eq_false_of_ne _ hth, hf, hr]
/-- Witness for C1: bound 2, one worker; two submissions, a take, a third submission. -/
theorem queue_bound_invariant_witness :
    ∃ p0 ev0 r s,
      (32 ≤ 64 ∧ 0 < 2 ∧ 2 < 2 ^ 31)
      ∧ boot 64 "P" ((2 : Nat) : Int) none 1 = StartResult.started p0 ev0 r
      ∧ steps { pool := p0, trace := ev0 }
          [Action.run (some ⟨1, none⟩), Action.run (some ⟨2, none⟩), Action.take,
           Action.run (some ⟨3, none⟩)] = some s
      ∧ s.pool.queue_ = [some ⟨2, none⟩, some ⟨3, none⟩]
      ∧ s.pool.maxQueueSize_ = 2 ∧ s.pool.queueSize ≤ 2 :=
  ⟨_, _, _, _, by decide, rfl, rfl, rfl,
    (queue_bound_invariant 64 "P" 2 none 1 _ _ _
      [Action.run (some ⟨1, none⟩), Action.run (some ⟨2, none⟩), Action.take,
       Action.run (some ⟨3, none⟩)] _ (by decide) (by decide) (by decide) rfl rfl).1⟩

/-- Joining threads enqueues nothing. -/
theorem pushed_join (l : List Thread) :
    pushed (l.map (fun thr => Event.join thr.name)) = [] := by
  induction l with
  | nil => rfl
  | cons i l ih => simpa [pushed] using ih

/-- Joining threads dequeues nothing. -/
theorem popped_join (l : List Thread) :
    popped (l.map (fun thr => Event.join thr.name)) = [] := by
  induction l with
  | nil => rfl
  | cons i l ih => simpa [popped] using ih

/-- One step keeps the enqueued tasks equal to the dequeued ones followed by the queue. -/
theorem step_keeps_fifo (s : Sys) (a : Action) (s1 : Sys)
    (hP : pushed s.trace = popped s.trace ++ s.pool.queue_) (h : step s a = some s1) :
    pushed s1.trace = popped s1.trace ++ s1.pool.queue_ := by
  cases a with
  | run task =>
    simp only [step] at h
    split at h
    · rename_i p ev r hrun
      cases h
      rcases run_done_cases _ _ _ _ _ hrun with
        ⟨rfl, -, rfl, -⟩ | ⟨rfl, -, -, rfl, -⟩ | ⟨rfl, -, -, -, rfl, -⟩
      · simpa [pushed_append, popped_append, pushed, popped] using hP
      · simpa using hP
      · simp [pushed_append, popped_append, pushed, popped, hP]
    · cases h
  | take =>
    simp only [step] at h
    split at h
    · rename_i p t ev htake
      cases h
      rcases take_some_cases _ _ _ _ htake with ⟨-, -, rfl, -, rfl⟩ | ⟨rest, hq, rfl, rfl⟩
      · simpa using hP
      · rw [hq] at hP
        split <;> simp [pushed_append, popped_append, pushed, popped, hP]
    · cases h
  | stop =>
    simp only [step, Option.some.injEq] at h
    cases h
    simpa [ThreadPool.stop, pushed_append, popped_append, pushed, popped, pushed_join,
      popped_join] using hP

/-- C2. Take a pool that was constructed, configured and started (with any number of
workers, in particular at least one).  In every state reached by any schedule of completed
`run`, `take` and `stop` steps, the tasks enqueued so far, in order, are exactly the tasks
dequeued so far, in order, followed by the present queue.  Hence the dequeued sequence is an
initial segment of the enqueued one; no task was dequeued more often than it was enqueued
(and never twice when the enqueued tasks are pairwise distinct); and a `take` that finds the
queue non-empty returns the earliest enqueued task not yet dequeued. -/
theorem fifo_handoff (w : Nat) (nameArg : String) (maxSize : Int) (cb : Task)
    (numThreads : Int) (p0 : ThreadPool) (ev0 : List Event) (r : CallResult)
    (acts : List Action) (s : Sys)
    (hstart : boot w nameArg maxSize cb numThreads = StartResult.started p0 ev0 r)
    (hreach : steps { pool := p0, trace := ev0 } acts = some s) :
    pushed s.trace = popped s.trace ++ s.pool.queue_
    ∧ popped s.trace <+: pushed s.trace
    ∧ (∀ t : Task, (popped s.trace).count t ≤ (pushed s.trace).count t)
    ∧ ((pushed s.trace).Nodup → (popped s.trace).Nodup)
    ∧ ∀ (p1 : ThreadPool) (t : Task) (ev : List Event),
        s.pool.take = some (p1, t, ev) → s.pool.queue_ ≠ [] →
          (pushed s.trace).get? (popped s.trace).length = some t
          ∧ popped ev = [t] ∧ t :: p1.queue_ = s.pool.queue_ := by
  obtain ⟨hq, -, -, -, hpu, hpo⟩ := boot_started _ _ _ _ _ _ _ _ hstart
  have inv : pushed s.trace = popped s.trace ++ s.pool.queue_ :=
    steps_induction (fun s => pushed s.trace = popped s.trace ++ s.pool.queue_)
      step_keeps_fifo acts _ s (by simp [hq, hpu, hpo]) hreach
  have hpre : popped s.trace <+: pushed s.trace := ⟨s.pool.queue_, inv.symm⟩
  refine ⟨inv, hpre, fun t => hpre.sublist.count_le t, fun hn => hn.sublist hpre.sublist, ?_⟩
  intro p1 t ev htake hne
  rcases take_some_cases _ _ _ _ htake with ⟨he, -⟩ | ⟨rest, hq1, rfl, rfl⟩
  · exact absurd he hne
  · refine ⟨?_, ?_, hq1.symm⟩
    · rw [inv, hq1, List.get?_eq_getElem?, List.getElem?_append_right (le_refl _)]
      simp
    · split <;> simp [popped]

/-- Witness for C2: bound 2, one worker; two submissions, a take, a third submission, a
take. -/
theorem fifo_handoff_witness :
    ∃ p0 ev0 r s,
      boot 64 "P" 2 none 1 = StartResult.started p0 ev0 r
      ∧ steps { pool := p0, trace := ev0 }
          [Action.run (some ⟨1, none⟩), Action.run (some ⟨2, none⟩), Action.take,
           Action.run (some ⟨3, none⟩), Action.take] = some s
      ∧ pushed s.trace = [some ⟨1, none⟩, some ⟨2, none⟩, some ⟨3, none⟩]
      ∧ popped s.trace = [some ⟨1, none⟩, some ⟨2, none⟩]
      ∧ popped s.trace <+: pushed s.trace :=
  ⟨_, _, _, _, rfl, rfl, rfl, rfl,
    (fifo_handoff 64 "P" 2 none 1 _ _ _
      [Action.run (some ⟨1, none⟩), Action.run (some ⟨2, none⟩), Action.take,
       Action.run (some ⟨3, none⟩), Action.take] _ rfl rfl).2.1⟩

/-- Whatever a step enqueues is the task of that step, a `run` step. -/
theorem step_pushed (s : Sys) (a : Action) (s1 : Sys) (h : step s a = some s1) (t : Task)
    (ht : t ∈ pushed s1.trace) : t ∈ pushed s.trace ∨ a = Action.run t := by
  cases a with
  | run task =>
    simp only [step] at h
    split at h
    · rename_i p ev r hrun
      cases h
      rcases run_done_cases _ _ _ _ _ hrun with
        ⟨rfl, -, rfl, -⟩ | ⟨rfl, -, -, rfl, -⟩ | ⟨rfl, -, -, -, rfl, -⟩
      · left; simpa [pushed_append, pushed] using ht
      · left; simpa using ht
      · simp only [pushed_append, pushed, List.mem_append, List.mem_singleton] at ht
        rcases ht with ht | ht
        · exact Or.inl ht
        · exact Or.inr (by rw [ht])
    · cases h
  | take =>
    simp only [step] at h
    split at h
    · rename_i p t0 ev htake
      cases h
      left
      rcases take_some_cases _ _ _ _ htake with ⟨-, -, rfl, -, rfl⟩ | ⟨rest, hq, rfl, rfl⟩
      · simpa using ht
      · revert ht
        split <;> simp [pushed_append, pushed]
    · cases h
  | stop =>
    simp only [step, Option.some.injEq] at h
    cases h
    left
    simpa [ThreadPool.stop, pushed_append, pushed, pushed_join] using ht

/-- Whatever a schedule enqueues is the task of one of its `run` steps. -/
theorem steps_pushed : ∀ (acts : List Action) (s s1 : Sys), steps s acts = some s1 →
    ∀ t : Task, t ∈ pushed s1.trace → t ∈ pushed s.trace ∨ Action.run t ∈ acts := by
  intro acts
  induction acts with
  | nil =>
    intro s s1 h t ht
    simp only [steps, Option.some.injEq] at h
    exact Or.inl (h ▸ ht)
  | cons a rest ih =>
    intro s s1 h t ht
    simp only [steps] at h
    split at h
    · cases h
    · rename_i s2 hs2
      rcases ih s2 s1 h t ht with h1 | h1
      · rcases step_pushed s a s2 hs2 t h1 with h2 | h2
        · exact Or.inl h2
        · exact Or.inr (by simp [h2])
      · exact Or.inr (List.mem_cons_of_mem _ h1)

/-- Counterexample to C5 as stated: the pool `P` is constructed and started with one
worker; `run` of an empty `Task` enqueues it; the next `take()` returns an empty `Task`
although the queue is not empty and the pool is running. -/
theorem take_returns_empty_while_running :
    boot 64 "P" 0 none 1
        = StartResult.started startedPool [Event.spawn "P1"] CallResult.returned
    ∧ startedPool.run none
        = RunResult.done startedPoolWithEmptyTask
            [Event.pushBack none, Event.notify Cond.notEmpty] CallResult.returned
    ∧ startedPoolWithEmptyTask.take = some (startedPool, none, [Event.popFront none])
    ∧ startedPoolWithEmptyTask.running_ = true
    ∧ startedPoolWithEmptyTask.queue_ ≠ []
    ∧ ¬ (startedPoolWithEmptyTask.queue_ = [] ∧ startedPoolWithEmptyTask.running_ = false) :=
  ⟨rfl, rfl, rfl, rfl, by decide, by decide⟩

/-- C5, amended. In every state reached from a constructed, configured and started pool by
any schedule of completed `run`, `take` and `stop` steps:
* `take()` waits exactly when the queue is empty and the pool is running;
* when it returns, either the queue was empty and the pool not running, and it returns an
  empty `Task` with the pool unchanged, or it removes the head of the queue and returns it,
  and that head was enqueued by a `run` step;
* if no `run` step of the schedule submitted an empty `Task`, an empty `Task` is returned
  only in the first case, so never while the pool is running. -/
theorem take_sentinel (w : Nat) (nameArg : String) (maxSize : Int) (cb : Task)
    (numThreads : Int) (p0 : ThreadPool) (ev0 : List Event) (r : CallResult)
    (acts : List Action) (s : Sys)
    (hstart : boot w nameArg maxSize cb numThreads = StartResult.started p0 ev0 r)
    (hreach : steps { pool := p0, trace := ev0 } acts = some s) :
    (s.pool.take = none ↔ s.pool.queue_ = [] ∧ s.pool.running_ = true)
    ∧ (∀ (p1 : ThreadPool) (t : Task) (ev : List Event), s.pool.take = some (p1, t, ev) →
        (s.pool.queue_ = [] ∧ s.pool.running_ = false ∧ t = none ∧ p1 = s.pool ∧ ev = [])
        ∨ (∃ rest, s.pool.queue_ = t :: rest ∧ p1 = { s.pool with queue_ := rest }
            ∧ popped ev = [t] ∧ Action.run t ∈ acts))
    ∧ (Action.run none ∉ acts →
        ∀ (p1 : ThreadPool) (ev : List Event), s.pool.take = some (p1, none, ev) →
          s.pool.queue_ = [] ∧ s.pool.running_ = false ∧ p1 = s.pool) := by
  obtain ⟨hq, -, -, -, hpu, hpo⟩ := boot_started _ _ _ _ _ _ _ _ hstart
  have inv : pushed s.trace = popped s.trace ++ s.pool.queue_ :=
    steps_induction (fun s => pushed s.trace = popped s.trace ++ s.pool.queue_)
      step_keeps_fifo acts _ s (by simp [hq, hpu, hpo]) hreach
  have hsub : ∀ t : Task, t ∈ s.pool.queue_ → Action.run t ∈ acts := by
    intro t ht
    have hmem : t ∈ pushed s.trace := by
      rw [inv]
      exact List.mem_append_right _ ht
    rcases steps_pushed acts _ s hreach t hmem with h1 | h1
    · simp [hpu] at h1
    · exact h1
  have hcases : ∀ (p1 : ThreadPool) (t : Task) (ev : List Event),
      s.pool.take = some (p1, t, ev) →
        (s.pool.queue_ = [] ∧ s.pool.running_ = false ∧ t = none ∧ p1 = s.pool ∧ ev = [])
        ∨ (∃ rest, s.pool.queue_ = t :: rest ∧ p1 = { s.pool with queue_ := rest }
            ∧ popped ev = [t] ∧ Action.run t ∈ acts) := by
    intro p1 t ev htake
    rcases take_some_cases _ _ _ _ htake with ⟨h1, h2, h3, h4, h5⟩ | ⟨rest, hq1, h3, rfl⟩
    · exact Or.inl ⟨h1, h2, h4, h3, h5⟩
    · refine Or.inr ⟨rest, hq1, h3, ?_, hsub t (by simp [hq1])⟩
      split <;> simp [popped]
  refine ⟨?_, hcases, ?_⟩
  · unfold ThreadPool.take
    constructor
    · intro h
      split at h
      · rename_i hc
        simpa using hc
      · split at h <;> cases h
    · rintro ⟨h1, h2⟩
      simp [h1, h2]
  · intro hno p1 ev htake
    rcases hcases p1 none ev htake with ⟨h1, h2, -, h3, -⟩ | ⟨rest, -, -, -, hmem⟩
    · exact ⟨h1, h2, h3⟩
    · exact absurd hmem hno

/-- Witness for C5, amended: bound 1, one worker, one non-empty task submitted, then
`stop()` and two takes: the second take finds the queue empty and the pool stopped. -/
theorem take_sentinel_witness :
    ∃ p0 ev0 r s,
      boot 64 "P" 1 none 1 = StartResult.started p0 ev0 r
      ∧ steps { pool := p0, trace := ev0 }
          [Action.run (some ⟨1, none⟩), Action.stop, Action.take] = some s
      ∧ s.pool.take = some (s.pool, none, [])
      ∧ (s.pool.queue_ = [] ∧ s.pool.running_ = false ∧ s.pool = s.pool) :=
  ⟨_, _, _, _, rfl, rfl, rfl,
    (take_sentinel 64 "P" 1 none 1 _ _ _
      [Action.run (some ⟨1, none⟩), Action.stop, Action.take] _ rfl rfl).2.2
      (by decide) _ _ rfl⟩

/-- On a running pool with workers whose queue is not full, `run` enqueues. -/
theorem run_enqueues (p : ThreadPool) (task : Task) (hth : p.threads_ ≠ [])
    (hr : p.running_ = true) (hf : p.isFull = false) :
    p.run task = RunResult.done { p with queue_ := p.queue_ ++ [task] }
      [Event.pushBack task, Event.notify Cond.notEmpty] CallResult.returned := by
  simp [ThreadPool.run, isEmpty_eq_false_of_ne _ hth, hf, hr]

/-- On a running pool with workers, as many submissions as there is room complete one after
the other, none waiting, and end up at the back of the queue in their order. -/
theorem steps_run_fill (ts : List Task) : ∀ s : Sys, s.pool.threads_ ≠ [] →
    s.pool.running_ = true → s.pool.queue_.length + ts.length ≤ s.pool.maxQueueSize_ →
    ∃ s1, steps s (ts.map Action.run) = some s1
      ∧ s1.pool = { s.pool with queue_ := s.pool.queue_ ++ ts }
      ∧ pushed s1.trace = pushed s.trace ++ ts ∧ popped s1.trace = popped s.trace := by
  induction ts with
  | nil =>
    intro s _ _ _
    exact ⟨s, rfl, by simp, by simp, rfl⟩
  | cons t ts ih =>
    intro s hth hr hlen
    simp only [List.length_cons] at hlen
    have hf : s.pool.isFull = false := by
      simp only [ThreadPool.isFull]
      simp
      intro _
      omega
    have hrun := run_enqueues s.pool t hth hr hf
    obtain ⟨s1, h1, h2, h3, h4⟩ :=
      ih { pool := { s.pool with queue_ := s.pool.queue_ ++ [t] },
           trace := s.trace ++ [Event.pushBack t, Event.notify Cond.notEmpty] }
        hth hr (by simp only [List.length_append, List.length_singleton]; omega)
    refine ⟨s1, ?_, ?_, ?_, ?_⟩
    · simp only [List.map_cons, steps, step, hrun]
      exact h1
    · rw [h2]
      simp
    · rw [h3]
      simp [pushed_append, pushed]
    · rw [h4]
      simp [popped_append, popped]

/-- C9. (a) On a pool with at least one worker, `run(task)` waits exactly when
(`maxQueueSize_ > 0` and `queue_.size() >= maxQueueSize_`) and `running_`.
(b) `run` never fails its assertion, and whenever it enqueues, `isFull()` was false.
(c) On a pool constructed, given a positive bound `c`, and started with at least one worker,
with no `take` in between: any `c` submissions complete one after the other without waiting
and fill the queue in their order; then every further submission waits; after one `take`
(which returns the first submitted task) that submission completes, at the back of the
queue. -/
theorem run_blocking_condition (w : Nat) (nameArg : String) (c : Nat) (cb : Task)
    (numThreads : Int) (p0 : ThreadPool) (ev0 : List Event) (r : CallResult)
    (ts : List Task) (extra : Task)
    (hw : 32 ≤ w) (hc : 0 < c) (hint : c < 2 ^ 31) (hn : 0 < numThreads)
    (hstart : boot w nameArg (c : Int) cb numThreads = StartResult.started p0 ev0 r)
    (hlen : ts.length = c) :
    (∀ (p : ThreadPool) (task : Task), p.threads_ ≠ [] →
      (p.run task = RunResult.waiting ↔
        (p.maxQueueSize_ > 0 ∧ p.queue_.length ≥ p.maxQueueSize_) ∧ p.running_ = true))
    ∧ (∀ (p : ThreadPool) (task : Task), p.run task ≠ RunResult.assertFailed
        ∧ ∀ p1 ev r1, p.run task = RunResult.done p1 ev r1 → pushed ev ≠ [] →
            p.isFull = false
            ∧ ¬ (p.maxQueueSize_ > 0 ∧ p.queue_.length ≥ p.maxQueueSize_))
    ∧ ∃ s, steps { pool := p0, trace := ev0 } (ts.map Action.run) = some s
        ∧ s.pool.queue_ = ts ∧ pushed s.trace = ts ∧ popped s.trace = []
        ∧ s.pool.run extra = RunResult.waiting
        ∧ step s (Action.run extra) = none
        ∧ ∃ s1 s2, step s Action.take = some s1
            ∧ popped s1.trace = ts.take 1
            ∧ step s1 (Action.run extra) = some s2
            ∧ s2.pool.queue_ = ts.drop 1 ++ [extra] := by
  refine ⟨?_, ?_, ?_⟩
  · intro p task hth
    have hne := isEmpty_eq_false_of_ne _ hth
    unfold ThreadPool.run
    simp only [hne, Bool.false_eq_true, if_false]
    constructor
    · intro h
      split at h
      · rename_i hc1
        simpa [ThreadPool.isFull] using hc1
      · split at h
        · cases h
        · split at h <;> cases h
    · intro h
      have : (p.isFull && p.running_) = true := by
        simpa [ThreadPool.isFull] using h
      simp [this]
  · intro p task
    constructor
    · unfold ThreadPool.run
      cases p.threads_.isEmpty <;> cases p.isFull <;> cases p.running_ <;> simp
    · intro p1 ev r1 hrun hpush
      rcases run_done_cases _ _ _ _ _ hrun with
        ⟨-, -, rfl, -⟩ | ⟨-, -, -, rfl, -⟩ | ⟨-, -, -, hf, -⟩
      · exact absurd rfl hpush
      · exact absurd rfl hpush
      · refine ⟨hf, ?_⟩
        simpa [ThreadPool.isFull] using hf
  · obtain ⟨hq, hm, hr, hth, hpu, hpo⟩ := boot_started _ _ _ _ _ _ _ _ hstart
    have hcap : p0.maxQueueSize_ = c := by
      rw [hm]
      have h31 : (2 : Int) ^ 31 ≤ (2 : Int) ^ w := pow_le_pow_right₀ (by norm_num) (by omega)
      have hc31 : ((2 ^ 31 : Nat) : Int) = (2 : Int) ^ 31 := by norm_cast
      have : (c : Int) % (2 : Int) ^ w = c := by
        apply Int.emod_eq_of_lt <;> omega
      rw [this]
      simp
    have hthr : p0.threads_ ≠ [] := by
      intro he
      rw [he] at hth
      simp only [List.length_nil] at hth
      omega
    obtain ⟨s, h1, h2, h3, h4⟩ := steps_run_fill ts { pool := p0, trace := ev0 } hthr hr
      (by simp only [hq, hcap, List.length_nil]; omega)
    simp only [hq, hpu, hpo, List.nil_append] at h2 h3 h4
    have hsq : s.pool.queue_ = ts := by rw [h2]
    have hsm : s.pool.maxQueueSize_ = c := by rw [h2]; exact hcap
    have hsr : s.pool.running_ = true := by rw [h2]; exact hr
    have hst : s.pool.threads_ ≠ [] := by rw [h2]; exact hthr
    have hsne := isEmpty_eq_false_of_ne _ hst
    have hfull : s.pool.isFull = true := by
      simp only [ThreadPool.isFull, hsq, hsm, hlen]
      simp [hc]
    have hwait : s.pool.run extra = RunResult.waiting := by
      simp [ThreadPool.run, hsne, hfull, hsr]
    refine ⟨s, h1, hsq, h3, h4, hwait, by simp [step, hwait], ?_⟩
    cases ts with
    | nil => simp only [List.length_nil] at hlen; omega
    | cons t rest =>
      simp only [List.length_cons] at hlen
      have htake : s.pool.take = some ({ s.pool with queue_ := rest }, t,
          Event.popFront t
            :: (if s.pool.maxQueueSize_ > 0 then [Event.notify Cond.notFull] else [])) := by
        simp [ThreadPool.take, hsq]
      have hf1 : ({ s.pool with queue_ := rest } : ThreadPool).isFull = false := by
        simp only [ThreadPool.isFull, hsm]
        simp
        intro _
        omega
      have hrun1 := run_enqueues { s.pool with queue_ := rest } extra hst hsr hf1
      refine ⟨{ pool := { s.pool with queue_ := rest },
                trace := s.trace ++ Event.popFront t
                  :: (if s.pool.maxQueueSize_ > 0 then [Event.notify Cond.notFull] else []) },
              { pool := { s.pool with queue_ := rest ++ [extra] },
                trace := (s.trace ++ Event.popFront t
                  :: (if s.pool.maxQueueSize_ > 0 then [Event.notify Cond.notFull] else []))
                  ++ [Event.pushBack extra, Event.notify Cond.notEmpty] },
              by simp only [step, htake], ?_, by simp only [step, hrun1], ?_⟩
      · simp only [popped_append, h4, List.nil_append]
        split <;> simp [popped]
      · simp

/-- Witness for C9: bound 2, one worker, three submissions. -/
theorem run_blocking_condition_witness :
    ∃ p0 ev0 r,
      (32 ≤ 64 ∧ 0 < 2 ∧ 2 < 2 ^ 31 ∧ (0 : Int) < 1)
      ∧ boot 64 "P" ((2 : Nat) : Int) none 1 = StartResult.started p0 ev0 r
      ∧ ∃ s, steps { pool := p0, trace := ev0 }
            ([some ⟨1, none⟩, some ⟨2, none⟩].map Action.run) = some s
        ∧ s.pool.queue_ = [some ⟨1, none⟩, some ⟨2, none⟩]
        ∧ pushed s.trace = [some ⟨1, none⟩, some ⟨2, none⟩] ∧ popped s.trace = []
        ∧ s.pool.run (some ⟨3, none⟩) = RunResult.waiting
        ∧ step s (Action.run (some ⟨3, none⟩)) = none
        ∧ ∃ s1 s2, step s Action.take = some s1
            ∧ popped s1.trace = [some ⟨1, none⟩, some ⟨2, none⟩].take 1
            ∧ step s1 (Action.run (some ⟨3, none⟩)) = some s2
            ∧ s2.pool.queue_ = [some ⟨1, none⟩, some ⟨2, none⟩].drop 1 ++ [some ⟨3, none⟩] :=
  ⟨_, _, _, by decide, rfl,
    (run_blocking_condition 64 "P" 2 none 1 _ _ _ [some ⟨1, none⟩, some ⟨2, none⟩]
      (some ⟨3, none⟩) (by decide) (by decide) (by decide) (by decide) rfl rfl).2.2⟩

/-- On a pool with a non-empty `threads_`, `start` fails its assertion. -/
theorem start_assertFailed (p : ThreadPool) (n : Int) (h : p.threads_ ≠ []) :
    p.start n = StartResult.assertFailed := by
  simp [ThreadPool.start, isEmpty_eq_false_of_ne _ h]

/-- A completed call on a stopped pool with workers leaves it stopped, with its workers. -/
theorem applyOp_keeps_stopped (w : Nat) (p p1 : ThreadPool) (op : Op)
    (hP : p.threads_ ≠ [] ∧ p.running_ = false) (h : applyOp w p op = some p1) :
    p1.threads_ ≠ [] ∧ p1.running_ = false := by
  obtain ⟨hth, hr⟩ := hP
  cases op with
  | setMaxQueueSize m => simp only [applyOp, Option.some.injEq] at h; cases h; exact ⟨hth, hr⟩
  | setThreadInitCallback cb =>
    simp only [applyOp, Option.some.injEq] at h; cases h; exact ⟨hth, hr⟩
  | start n => simp [applyOp, start_assertFailed p n hth] at h
  | stop => simp only [applyOp, Option.some.injEq] at h; cases h; exact ⟨hth, rfl⟩
  | name => simp only [applyOp, Option.some.injEq] at h; cases h; exact ⟨hth, hr⟩
  | queueSize => simp only [applyOp, Option.some.injEq] at h; cases h; exact ⟨hth, hr⟩
  | run task =>
    simp only [applyOp] at h
    split at h
    · rename_i p2 ev r hrun
      cases h
      rcases run_done_cases _ _ _ _ _ hrun with ⟨rfl, -⟩ | ⟨rfl, -⟩ | ⟨rfl, -⟩
      · exact ⟨hth, hr⟩
      · exact ⟨hth, hr⟩
      · exact ⟨hth, hr⟩
    · cases h
  | take =>
    simp only [applyOp] at h
    split at h
    · rename_i p2 t ev htake
      cases h
      rcases take_some_cases _ _ _ _ htake with ⟨-, -, rfl, -⟩ | ⟨rest, -, rfl, -⟩
      · exact ⟨hth, hr⟩
      · exact ⟨hth, hr⟩
    · cases h

/-- A sequence of completed calls on a stopped pool with workers leaves it stopped. -/
theorem applyOps_keeps_stopped (w : Nat) : ∀ (ops : List Op) (p p1 : ThreadPool),
    p.threads_ ≠ [] ∧ p.running_ = false → applyOps w p ops = some p1 →
    p1.threads_ ≠ [] ∧ p1.running_ = false := by
  intro ops
  induction ops with
  | nil =>
    intro p p1 hP h
    simp only [applyOps, Option.some.injEq] at h
    exact h ▸ hP
  | cons op rest ih =>
    intro p p1 hP h
    simp only [applyOps] at h
    split at h
    · cases h
    · rename_i p2 hp2
      exact ih p2 p1 (applyOp_keeps_stopped w p p2 op hP hp2) h

/-- A completed call keeps a non-empty `threads_` non-empty. -/
theorem applyOp_keeps_threads (w : Nat) (p p1 : ThreadPool) (op : Op)
    (hth : p.threads_ ≠ []) (h : applyOp w p op = some p1) : p1.threads_ ≠ [] := by
  cases op with
  | setMaxQueueSize m => simp only [applyOp, Option.some.injEq] at h; cases h; exact hth
  | setThreadInitCallback cb => simp only [applyOp, Option.some.injEq] at h; cases h; exact hth
  | start n => simp [applyOp, start_assertFailed p n hth] at h
  | stop => simp only [applyOp, Option.some.injEq] at h; cases h; exact hth
  | name => simp only [applyOp, Option.some.injEq] at h; cases h; exact hth
  | queueSize => simp only [applyOp, Option.some.injEq] at h; cases h; exact hth
  | run task =>
    simp only [applyOp] at h
    split at h
    · rename_i p2 ev r hrun
      cases h
      rcases run_done_cases _ _ _ _ _ hrun with ⟨rfl, -⟩ | ⟨rfl, -⟩ | ⟨rfl, -⟩ <;> exact hth
    · cases h
  | take =>
    simp only [applyOp] at h
    split at h
    · rename_i p2 t ev htake
      cases h
      rcases take_some_cases _ _ _ _ htake with ⟨-, -, rfl, -⟩ | ⟨rest, -, rfl, -⟩ <;> exact hth
    · cases h

/-- A sequence of completed calls keeps a non-empty `threads_` non-empty. -/
theorem applyOps_keeps_threads (w : Nat) : ∀ (ops : List Op) (p p1 : ThreadPool),
    p.threads_ ≠ [] → applyOps w p ops = some p1 → p1.threads_ ≠ [] := by
  intro ops
  induction ops with
  | nil =>
    intro p p1 hP h
    simp only [applyOps, Option.some.injEq] at h
    exact h ▸ hP
  | cons op rest ih =>
    intro p p1 hP h
    simp only [applyOps] at h
    split at h
    · cases h
    · rename_i p2 hp2
      exact ih p2 p1 (applyOp_keeps_threads w p p2 op hP hp2) h

/-- Counterexample to C6 as stated: the pool `P` is constructed, `start(0)` sets
`running_`, `stop()` clears it; `threads_` is still empty, so the precondition of `start`
holds, and a second `start(0)` sets `running_` again. -/
theorem restart_of_zero_worker_pool :
    (ThreadPool.ctor "P").start 0
        = StartResult.started zeroWorkerRunning [] CallResult.returned
    ∧ zeroWorkerRunning.stop
        = (zeroWorkerStopped, [Event.notifyAll Cond.notEmpty, Event.notifyAll Cond.notFull])
    ∧ zeroWorkerStopped.running_ = false
    ∧ zeroWorkerStopped.threads_.isEmpty = true
    ∧ zeroWorkerStopped.start 0
        = StartResult.started zeroWorkerRunning [] CallResult.returned
    ∧ zeroWorkerRunning.running_ = true
    ∧ applyOps 64 (ThreadPool.ctor "P") [Op.start 0, Op.stop, Op.start 0]
        = some zeroWorkerRunning :=
  ⟨rfl, rfl, rfl, rfl, rfl, rfl, rfl⟩

/-- C6, amended. A pool started with at least one worker has a non-empty `threads_`, which
no call empties.  So once its `running_` is false (after `stop()`), every later `start`
fails its assertion `threads_.empty()`, and no sequence of completed calls (public member
functions, with `take` steps of workers in between) makes `running_` true again.  A pool
whose `threads_` is empty is different: after `stop()`, `start` with any non-negative number
of threads completes and sets `running_`. -/
theorem no_restart_with_workers (w : Nat) (p0 p1 p2 p3 : ThreadPool) (numThreads : Int)
    (ev : List Event) (r : CallResult) (ops1 ops2 : List Op)
    (hn : 0 < numThreads)
    (hstart : p0.start numThreads = StartResult.started p1 ev r)
    (h1 : applyOps w p1 ops1 = some p2) (hstop : p2.running_ = false)
    (h2 : applyOps w p2 ops2 = some p3) :
    (p3.running_ = false ∧ p3.threads_ ≠ []
      ∧ ∀ n : Int, p3.start n = StartResult.assertFailed ∧ applyOp w p3 (Op.start n) = none)
    ∧ ∀ (q : ThreadPool) (n : Int), q.threads_ = [] → 0 ≤ n →
        ∃ q1 ev1 r1, q.stop.1.start n = StartResult.started q1 ev1 r1
          ∧ q1.running_ = true := by
  constructor
  · have hth1 : p1.threads_ ≠ [] := by
      unfold ThreadPool.start at hstart
      split at hstart
      · simp only [not_lt.mpr (le_of_lt hn), if_false] at hstart
        have hpos : 0 < numThreads.toNat := by omega
        split at hstart
        · cases hstart
          intro hc
          have := congrArg List.length hc
          simp at this
          omega
        · cases hstart
          intro hc
          have := congrArg List.length hc
          simp at this
          omega
      · cases hstart
    have hth2 := applyOps_keeps_threads w ops1 p1 p2 hth1 h1
    obtain ⟨hth3, hr3⟩ := applyOps_keeps_stopped w ops2 p2 p3 ⟨hth2, hstop⟩ h2
    refine ⟨hr3, hth3, fun n => ⟨start_assertFailed p3 n hth3, ?_⟩⟩
    simp [applyOp, start_assertFailed p3 n hth3]
  · intro q n hq hn0
    unfold ThreadPool.start
    simp only [ThreadPool.stop, hq, List.isEmpty_nil, if_true, not_lt.mpr hn0, if_false]
    split
    · exact ⟨_, _, _, rfl, rfl⟩
    · exact ⟨_, _, _, rfl, rfl⟩

/-- Witness for C6, amended: one worker; `run`, `stop`, then `run`, `stop` and `queueSize`
again. -/
theorem no_restart_with_workers_witness :
    ∃ p1 p2 p3 ev r,
      (0 : Int) < 1
      ∧ (ThreadPool.ctor "P").start 1 = StartResult.started p1 ev r
      ∧ applyOps 64 p1 [Op.run (some ⟨1, none⟩), Op.stop] = some p2
      ∧ p2.running_ = false
      ∧ applyOps 64 p2 [Op.run (some ⟨2, none⟩), Op.stop, Op.queueSize, Op.take] = some p3
      ∧ (p3.running_ = false ∧ p3.threads_ ≠ []
          ∧ ∀ n : Int, p3.start n = StartResult.assertFailed
              ∧ applyOp 64 p3 (Op.start n) = none) :=
  ⟨_, _, _, _, _, by decide, rfl, rfl, rfl, rfl,
    (no_restart_with_workers 64 (ThreadPool.ctor "P") _ _ _ 1 _ _
      [Op.run (some ⟨1, none⟩), Op.stop]
      [Op.run (some ⟨2, none⟩), Op.stop, Op.queueSize, Op.take]
      (by decide) rfl rfl rfl rfl).1⟩

/-- The join attempts of one `stop()` are one per element of `threads_`, in order. -/
theorem joined_stop (p : ThreadPool) : joined p.stop.2 = p.threads_.map Thread.name := by
  have key : ∀ l : List Thread,
      joined (l.map (fun thr => Event.join thr.name)) = l.map Thread.name := by
    intro l
    induction l with
    | nil => rfl
    | cons a l ih => simp [joined, ih]
  simp [ThreadPool.stop, joined, key]

/-- Counterexample to C7 as stated: the pool `P` is constructed and started with one
worker `P1`; the first `stop()` calls `join()` on `P1`, and the second `stop()` calls
`join()` on `P1` again. -/
theorem second_stop_joins_again :
    boot 64 "P" 0 none 1
        = StartResult.started startedPool [Event.spawn "P1"] CallResult.returned
    ∧ startedPool.stop
        = (stoppedPool,
            [Event.notifyAll Cond.notEmpty, Event.notifyAll Cond.notFull, Event.join "P1"])
    ∧ stoppedPool.stop
        = (stoppedPool,
            [Event.notifyAll Cond.notEmpty, Event.notifyAll Cond.notFull, Event.join "P1"])
    ∧ ¬ (∀ n : String, n ∈ joined startedPool.stop.2 → n ∉ joined startedPool.stop.1.stop.2) :=
  ⟨rfl, rfl, rfl, by decide⟩

/-- C7, amended. For every pool, two calls of `stop()` in a row leave the same pool object
as one call: `running_` false, `queue_` and `threads_` as before.  Each of the two calls
makes one join attempt per element of `threads_`, so the second call attempts again the join
of every worker the first call joined, and makes no join attempt exactly when `threads_` is
empty.  The destructor after a `stop()` does not call `stop()` and makes no join attempt. -/
theorem stop_twice (p : ThreadPool) :
    p.stop.1.stop.1 = p.stop.1
    ∧ p.stop.1.running_ = false ∧ p.stop.1.queue_ = p.queue_ ∧ p.stop.1.threads_ = p.threads_
    ∧ joined p.stop.2 = p.threads_.map Thread.name
    ∧ joined p.stop.1.stop.2 = p.threads_.map Thread.name
    ∧ (joined p.stop.1.stop.2 = [] ↔ p.threads_ = [])
    ∧ p.stop.1.dtor = (p.stop.1, []) := by
  refine ⟨rfl, rfl, rfl, rfl, joined_stop p, joined_stop p.stop.1, ?_, rfl⟩
  rw [joined_stop p.stop.1]
  simp [ThreadPool.stop]

end muduo
